import Mathlib

/-!
Shallow embedding of the trackerman repository (sartiplay/trackerman) for
checking its natural-language specification.

Conventions used throughout:
* JS numbers that hold prices are modelled as `ℚ` (every price produced by the
  code is a finite decimal, and the code performs only comparisons on them).
* JS strings are Lean `String` / `List Char`.  `String.prototype.toLowerCase`
  is modelled per-character by `Char.toLower` (ASCII case mapping); the five
  tier keywords the code compares against are pure ASCII.
* Timestamps (`new Date().toISOString()`, `Date.now()`) are opaque values,
  modelled as `Nat` parameters supplied by the caller.
* File persistence (`saveData` / `saveSettings`) is out of scope; the
  `lastUpdated` bookkeeping field that `saveData` stamps on the data document
  is elided from the state, matching the spec's abstract snapshot store.
* Thrown JS exceptions are modelled with `Except`; code paths that throw
  before mutating return an error and no new state.
-/

namespace Trackerman

/-! ### Character helpers for the JS string operations -/

/-- Code points of the Unicode `Sc` (currency-symbol) category, as matched by
the regex `[\p{Sc}]` in `parsePrice` (both scraper variants). -/
def scCodes : List Nat :=
  [0x24, 0xA2, 0xA3, 0xA4, 0xA5, 0x58F, 0x60B, 0x7FE, 0x7FF, 0x9F2, 0x9F3,
   0x9FB, 0xAF1, 0xBF9, 0xE3F, 0x17DB] ++ List.range' 0x20A0 33 ++
  [0xA838, 0xFDFC, 0xFE69, 0xFF04, 0xFFE0, 0xFFE1, 0xFFE5, 0xFFE6,
   0x11FDD, 0x11FDE, 0x11FDF, 0x11FE0, 0x1E2FF, 0x1ECB0]

/-- `c` is a currency-symbol glyph (`/[\p{Sc}]/u`). -/
def isCurrencyChar (c : Char) : Bool := scCodes.contains c.toNat

/-- Characters kept by the normalization step
`text.replace(/[^0-9,\.]/g, '')` in `parsePrice`. -/
def isPriceChar (c : Char) : Bool := c.isDigit || c == ',' || c == '.'

/-- Value of a big-endian list of decimal digit characters (the way JS
`parseFloat` reads a digit run). -/
def valDigits (ds : List Char) : Nat :=
  ds.foldl (fun a c => 10 * a + (c.toNat - 48)) 0

/-- Decimal digits of `n`, big-endian, fuel-driven so that it is structurally
recursive (empty for `n = 0`). -/
def natDigitsAux : Nat → Nat → List Char
  | 0, _ => []
  | fuel + 1, n =>
    if n = 0 then [] else natDigitsAux fuel (n / 10) ++ [Char.ofNat (48 + n % 10)]

def natDigits (n : Nat) : List Char := natDigitsAux (n + 1) n

/-- Decimal rendering of a natural number (`"0"` for zero). -/
def renderNat (n : Nat) : List Char := if n = 0 then ['0'] else natDigits n

/-- Left-pad a digit list with `'0'` to length `k`. -/
def padZeros (k : Nat) (ds : List Char) : List Char :=
  List.replicate (k - ds.length) '0' ++ ds

/-- Drop trailing `'0'` characters. -/
def stripZeros (ds : List Char) : List Char :=
  (ds.reverse.dropWhile (fun c => c == '0')).reverse

/-- JS `parseFloat`, restricted to the argument shapes that reach it inside
`parsePrice` (strings containing only digits, commas and dots, hence no sign,
exponent or leading whitespace): the longest prefix of shape
`digits [ '.' digits ]` is read; `none` models `NaN`. -/
def jsParseFloat? (s : List Char) : Option ℚ :=
  let intDs := s.takeWhile Char.isDigit
  match s.dropWhile Char.isDigit with
  | '.' :: rest =>
    let fracDs := rest.takeWhile Char.isDigit
    if intDs.isEmpty && fracDs.isEmpty then none
    else some ((valDigits intDs : ℚ) + (valDigits fracDs : ℚ) / 10 ^ fracDs.length)
  | _ => if intDs.isEmpty then none else some ((valDigits intDs : ℚ))

/-- The regex test `/,\d{2}$/`: the string ends in a comma followed by exactly
two digits. -/
def endsCommaDD (s : List Char) : Bool :=
  match s.reverse with
  | d1 :: d0 :: ',' :: _ => d1.isDigit && d0.isDigit
  | _ => false

/-- JS `String.replace(',', '.')` — replaces only the first comma. -/
def replaceFirstComma : List Char → List Char
  | [] => []
  | c :: r => if c == ',' then '.' :: r else c :: replaceFirstComma r

structure PriceResult where
  price : ℚ
  currency : String
deriving DecidableEq, Repr

/-- `SteamMarketScraper.parsePrice` (identical in `steam-scraper.ts` and
`auto-scheduler.ts`).  The source's second replace
`.replace(/(\d)[\s](\d)/g, '$1$2')` is a no-op because the first replace has
already removed every whitespace character, so it is not reproduced. -/
def parsePrice (text : String) : PriceResult :=
  let currency :=
    match text.data.find? (fun c => isCurrencyChar c) with
    | some c => String.mk [c]
    | none => "$"
  let normalized := text.data.filter isPriceChar
  let price :=
    if endsCommaDD normalized && normalized.contains '.' then
      -- both separators: remove thousands dots, replace the comma decimal
      (jsParseFloat? (replaceFirstComma (normalized.filter (fun c => !(c == '.'))))).getD 0
    else if endsCommaDD normalized then
      (jsParseFloat? (replaceFirstComma normalized)).getD 0
    else
      (jsParseFloat? (normalized.filter (fun c => !(c == ',')))).getD 0
  { price := price, currency := currency }

/-! ### Name / exterior classification -/

/-- Per-character lowercasing, modelling `String.prototype.toLowerCase` on the
(ASCII) material the classifier compares. -/
def lowerStr (s : List Char) : List Char := s.map Char.toLower

/-- JS `\w` word-character class `[A-Za-z0-9_]`, used by the `\b` boundaries
in `new RegExp("\\b" + ext + "\\b", "gi")`. -/
def isWordChar (c : Char) : Bool := (c.isAlpha || c.isDigit) || c == '_'

/-- JS `\s` whitespace for `trim()` and `/\s+/g` (common members). -/
def isJsSpace (c : Char) : Bool :=
  c == ' ' || c == '\t' || c == '\n' || c == '\r' ||
  c.toNat == 11 || c.toNat == 12 || c.toNat == 0xA0 || c.toNat == 0xFEFF

/-- Case-insensitive match of keyword `kw` at the head of `s`, with the two
`\b` boundary conditions of the source regex; `prev` is the original character
immediately before the match position (`none` at the start of the string).
The five tier keywords all start and end with a word character, so each `\b`
amounts to the neighbouring character not being a word character. -/
def matchesAt (kw s : List Char) (prev : Option Char) : Bool :=
  lowerStr (s.take kw.length) == lowerStr kw &&
  (match prev with
   | none => true
   | some p => !isWordChar p) &&
  (match s.drop kw.length with
   | [] => true
   | c :: _ => !isWordChar c)

/-- Global (`g` flag) removal of the word-bounded, case-insensitive keyword:
scan left to right, delete each match and resume after it.  Fuel-driven
(initial fuel = string length) so that it is structurally recursive. -/
def removeBoundedAux (kw : List Char) : Nat → Option Char → List Char → List Char
  | 0, _, s => s
  | fuel + 1, prev, s =>
    match s with
    | [] => []
    | c :: rest =>
      if !kw.isEmpty && matchesAt kw s prev then
        removeBoundedAux kw fuel (some ((s.take kw.length).getLastD c)) (s.drop kw.length)
      else
        c :: removeBoundedAux kw fuel (some c) rest

/-- `fullName.replace(new RegExp("\\b" + ext + "\\b", "gi"), '')`. -/
def removeBounded (kw s : String) : List Char :=
  removeBoundedAux kw.data s.data.length none s.data

/-- `String.prototype.trim()`. -/
def jsTrim (s : List Char) : List Char :=
  ((s.dropWhile isJsSpace).reverse.dropWhile isJsSpace).reverse

/-- `.replace(/\s+/g, ' ')`: each maximal whitespace run becomes one space.
The boolean argument records whether the previous character was whitespace. -/
def collapseWsAux : Bool → List Char → List Char
  | _, [] => []
  | prevSpace, c :: rest =>
    if isJsSpace c then
      (if prevSpace then [] else [' ']) ++ collapseWsAux true rest
    else c :: collapseWsAux false rest

def collapseWs (s : List Char) : List Char := collapseWsAux false s

structure NameExterior where
  name : String
  exterior : String
deriving DecidableEq, Repr

/-- The fixed priority list of tier keywords. -/
def exteriors : List String :=
  ["Factory New", "Minimal Wear", "Field-Tested", "Well-Worn", "Battle-Scarred"]

/-- `needle` occurs as a contiguous run somewhere in `hay`. -/
def containsSeq (needle : List Char) : List Char → Bool
  | [] => needle.isEmpty
  | c :: rest => (c :: rest).take needle.length == needle || containsSeq needle rest

/-- `fullName.toLowerCase().includes(ext.toLowerCase())`. -/
def lowerContains (hay needle : String) : Bool :=
  containsSeq (lowerStr needle.data) (lowerStr hay.data)

/-- `SteamMarketScraper.extractNameAndExterior` (identical in both scraper
variants): first keyword whose lowercase form is a substring wins; the name is
the label with the word-bounded occurrences of that keyword removed, trimmed,
whitespace-collapsed and trimmed again. -/
def extractNameAndExterior (fullName : String) : NameExterior :=
  match exteriors.find? (fun ext => lowerContains fullName ext) with
  | some ext =>
    { name := String.mk (jsTrim (collapseWs (jsTrim (removeBounded ext fullName)))),
      exterior := ext }
  | none =>
    { name := String.mk (jsTrim (collapseWs fullName.data)), exterior := "Unknown" }

/-! ### Data model (`types/index.ts`) -/

/-- `SkinData`: one price observation.  `expired` is the superseded flag; the
source declares it optional but every creation site (`addSkinData`) assigns it
explicitly, so it is modelled as `Bool`. -/
structure SkinData where
  timestamp : Nat
  price : ℚ
  currency : String
  listingId : Option String := none
  sellerId : Option String := none
  sellerName : Option String := none
  expired : Bool := false
deriving DecidableEq, Repr

structure Thresholds where
  high : Option ℚ := none
  low : Option ℚ := none
deriving DecidableEq, Repr

/-- `Skin`: a tracked item, identified by `(name, exterior)`. -/
structure Skin where
  name : String
  exterior : String
  url : String
  skindata : List SkinData
  thresholds : Option Thresholds := none
deriving DecidableEq, Repr

/-- `TrackermanData` (the items document).  The `lastUpdated` stamp written by
`saveData` on every persist is file-layer bookkeeping and is elided. -/
structure TrackermanData where
  skins : List Skin
deriving DecidableEq, Repr

structure SteamMarketItem where
  name : String
  exterior : String
  price : ℚ
  currency : String
  listingId : Option String := none
  sellerId : Option String := none
  sellerName : Option String := none
deriving DecidableEq, Repr

/-- `AutoSchedulerSettings`. -/
structure AutoSchedulerSettings where
  enabled : Bool
  intervalMinutes : Nat
  lastRun : Option Nat := none
deriving DecidableEq, Repr

structure DiscordNotificationToggles where
  priceUpdate : Bool
  thresholdHigh : Bool
  thresholdLow : Bool
deriving DecidableEq, Repr

structure DiscordNotificationSettings where
  enabled : Bool
  webhookUrl : Option String := none
  notifications : DiscordNotificationToggles
deriving DecidableEq, Repr

structure ScrapingSettings where
  timeoutMs : Nat
  delayBetweenRequests : Nat
  maxRetries : Nat
deriving DecidableEq, Repr

structure LoggingSettings where
  enabled : Bool
  file : Option String := none
deriving DecidableEq, Repr

structure TrackermanSettings where
  autoScheduler : AutoSchedulerSettings
  discord : DiscordNotificationSettings
  scraping : ScrapingSettings
  logging : Option LoggingSettings := none
deriving DecidableEq, Repr

/-! ### `DataManager` (`data-manager.ts`): the snapshot store -/

/-- The predicate `skin.name === name && skin.exterior === exterior` used by
`getSkin` / `removeSkin`. -/
def skinKeyMatches (name exterior : String) (s : Skin) : Bool :=
  s.name == name && s.exterior == exterior

/-- Replace the first element satisfying `p` by its image under `f`; the JS
code finds that object with `Array.find` and mutates it in place. -/
def updateFirst (p : Skin → Bool) (f : Skin → Skin) : List Skin → List Skin
  | [] => []
  | s :: rest => if p s then f s :: rest else s :: updateFirst p f rest

namespace DataManager

/-- `DataManager.getSkin`. -/
def getSkin (d : TrackermanData) (name exterior : String) : Option Skin :=
  d.skins.find? (skinKeyMatches name exterior)

/-- `DataManager.getActiveSkin`: the skin with only non-expired data points. -/
def getActiveSkin (d : TrackermanData) (name exterior : String) : Option Skin :=
  (getSkin d name exterior).map fun skin =>
    { skin with skindata := skin.skindata.filter (fun data => !data.expired) }

/-- `existingSkin.skindata.forEach(data => { data.expired = true; })`. -/
def markExpired (l : List SkinData) : List SkinData :=
  l.map fun data => { data with expired := true }

/-- `DataManager.addSkinData`: mark every stored data point of the existing
skin expired and push the new one (with `expired = false`), updating the URL;
for an unknown key, create the skin with this sole non-expired data point. -/
def addSkinData (d : TrackermanData) (name exterior : String) (skinData : SkinData)
    (url : String) : TrackermanData :=
  match getSkin d name exterior with
  | some _ =>
    { skins :=
        updateFirst (skinKeyMatches name exterior)
          (fun s =>
            { s with
              skindata := markExpired s.skindata ++ [{ skinData with expired := false }],
              url := url })
          d.skins }
  | none =>
    { skins :=
        d.skins ++
          [{ name := name, exterior := exterior, url := url,
             skindata := [{ skinData with expired := false }], thresholds := none }] }

/-- `DataManager.addSkin`: throws (before touching the list) when the
`(name, exterior)` key already exists, so the error branch carries no new
state. -/
def addSkin (d : TrackermanData) (skin : Skin) : Except String TrackermanData :=
  if (getSkin d skin.name skin.exterior).isSome then
    .error ("Skin " ++ skin.name ++ " (" ++ skin.exterior ++ ") already exists")
  else
    .ok { skins := d.skins ++ [skin] }

/-- `DataManager.removeSkin`: keep every skin whose key does not match. -/
def removeSkin (d : TrackermanData) (name exterior : String) : TrackermanData :=
  { skins := d.skins.filter (fun s => !skinKeyMatches name exterior s) }

end DataManager

/-! ### Change & threshold detection
(`AutoScheduler.executeScheduledFetch` lines 106–126 and
`TrackermanService.checkAndSendNotifications`) -/

inductive Intent where
  | priceChange
  | thresholdHigh
  | thresholdLow
deriving DecidableEq, Repr

/-- The two threshold checks, shared verbatim by both call sites:
`skin.thresholds.high && price >= skin.thresholds.high` and the `low`
counterpart.  JS truthiness makes a threshold equal to `0` behave as
unconfigured. -/
def thresholdIntents (thresholds : Option Thresholds) (price : ℚ) : List Intent :=
  match thresholds with
  | none => []
  | some t =>
    (match t.high with
     | some high => if high ≠ 0 ∧ high ≤ price then [Intent.thresholdHigh] else []
     | none => []) ++
    (match t.low with
     | some low => if low ≠ 0 ∧ price ≤ low then [Intent.thresholdLow] else []
     | none => [])

/-- Notification intents emitted for one item inside
`AutoScheduler.executeScheduledFetch`; `skin` is the PRE-append record:
`previousData = skin.skindata[skin.skindata.length - 1]` and
`priceChanged = !previousData || previousData.price !== item.price`. -/
def schedulerAlertIntents (skin : Skin) (itemPrice : ℚ) : List Intent :=
  let priceChanged :=
    match skin.skindata.getLast? with
    | none => true
    | some previousData => decide (previousData.price ≠ itemPrice)
  (if priceChanged then [Intent.priceChange] else []) ++
    thresholdIntents skin.thresholds itemPrice

/-- Notification intents emitted by
`TrackermanService.checkAndSendNotifications`; `skin` is the POST-append
record, so a prior observation exists exactly when `skindata.length > 1` and
it sits at index `length - 2`. -/
def serviceAlertIntents (skin : Skin) (newData : SkinData) : List Intent :=
  (if skin.skindata.length > 1 then
    match skin.skindata.get? (skin.skindata.length - 2) with
    | some previousData =>
      if previousData.price ≠ newData.price then [Intent.priceChange] else []
    | none => []
  else []) ++ thresholdIntents skin.thresholds newData.price

/-! ### The scheduled cycle (`AutoScheduler.executeScheduledFetch`) -/

structure SchedState where
  data : TrackermanData
  settings : TrackermanSettings
deriving DecidableEq, Repr

/-- Observable outcome of one cycle: final state plus the logs of notifier
calls `(name, exterior, intent)` and of fetch attempts `(name, exterior)`. -/
structure CycleOutcome where
  state : SchedState
  notifications : List (String × String × Intent)
  fetched : List (String × String)
deriving DecidableEq, Repr

/-- The body of the `for (const skin of skins)` loop.  `fetch` is the oracle
for `scraper.scrapeMarketPage` (`.error` = the call threw, caught by the
per-item `try/catch`); a successful fetch with an empty candidate list appends
nothing (`if (items.length > 0)`).  `ts` stands for the
`new Date().toISOString()` stamp of the new data point. -/
def cycleStep (fetch : Skin → Except Unit (List SteamMarketItem)) (ts : Nat)
    (acc : CycleOutcome) (skin : Skin) : CycleOutcome :=
  let acc := { acc with fetched := acc.fetched ++ [(skin.name, skin.exterior)] }
  match fetch skin with
  | .error _ => acc
  | .ok [] => acc
  | .ok (item :: _) =>
    let skinData : SkinData :=
      { timestamp := ts, price := item.price, currency := item.currency,
        listingId := item.listingId, sellerId := item.sellerId }
    { acc with
      state :=
        { acc.state with
          data := DataManager.addSkinData acc.state.data skin.name skin.exterior
                    skinData skin.url },
      notifications :=
        acc.notifications ++
          (schedulerAlertIntents skin item.price).map
            (fun i => (skin.name, skin.exterior, i)) }

/-- `AutoScheduler.executeScheduledFetch`: with no tracked skins the method
returns before fetching or touching the settings; otherwise it runs the loop
over the snapshot of the list and finally persists
`{...this.settings, lastRun}` (the scheduler's own settings record `sched`)
into `settings.autoScheduler`.  `tsRun` is the completion stamp. -/
def executeScheduledFetch (fetch : Skin → Except Unit (List SteamMarketItem))
    (sched : AutoSchedulerSettings) (ts tsRun : Nat) (st : SchedState) : CycleOutcome :=
  if st.data.skins.isEmpty then
    { state := st, notifications := [], fetched := [] }
  else
    let out := st.data.skins.foldl (cycleStep fetch ts)
      { state := st, notifications := [], fetched := [] }
    { out with
      state :=
        { out.state with
          settings :=
            { out.state.settings with
              autoScheduler := { sched with lastRun := some tsRun } } } }

/-! ### Listing extraction (`SteamMarketScraper`, both variants) -/

inductive PriceType where
  | lowest
  | highest
deriving DecidableEq, Repr

structure ScrapingOptions where
  fetchType : String := "all"
  priceType : PriceType
  count : Nat
  exteriorFilter : Option String := none
deriving DecidableEq, Repr

/-- `const count = Math.max(1, options.count || 10)` (JS `0` is falsy). -/
def renderCount (optCount : Nat) : Nat :=
  max 1 (if optCount = 0 then 10 else optCount)

/-- Stable insertion used to model JS `Array.sort` (which is stable): the new
element is placed before the first element it compares `le` to. -/
def insertBy {α : Type} (le : α → α → Bool) (x : α) : List α → List α
  | [] => [x]
  | y :: ys => if le x y then x :: y :: ys else y :: insertBy le x ys

/-- Stable sort modelling JS `Array.sort(cmp)`. -/
def sortBy {α : Type} (le : α → α → Bool) : List α → List α
  | [] => []
  | x :: xs => insertBy le x (sortBy le xs)

/-- Post-processing shared by every strategy: optional exterior filter
(case-insensitive equality), stable sort by price (ascending for `lowest`,
descending otherwise), then `slice(0, count)`. -/
def postProcess (options : ScrapingOptions) (items : List SteamMarketItem) :
    List SteamMarketItem :=
  let items : List SteamMarketItem :=
    match options.exteriorFilter with
    | some f =>
      if f ≠ "" then
        items.filter (fun i => lowerStr i.exterior.data == lowerStr f.data)
      else items
    | none => items
  let items : List SteamMarketItem :=
    match options.priceType with
    | .lowest => sortBy (fun a b => decide (a.price ≤ b.price)) items
    | .highest => sortBy (fun a b => decide (b.price ≤ a.price)) items
  items.take options.count

/-- One parsed `.market_listing_row` of a direct-listing page. -/
structure ListingRow where
  priceText : String
  rowId : Option String := none
  sellerText : String := ""
  sellerHref : Option String := none
deriving DecidableEq, Repr

/-- Candidate built from a listing row (the `items.push({...})` inside
`scrapeItemListings`).  `genId` models the generated fallback
`listing_${Date.now()}_${Math.random()}` identifier, indexed by row
position. -/
def directItem (itemInfo : NameExterior) (genId : Nat → String) (idx : Nat)
    (row : ListingRow) (pr : PriceResult) : SteamMarketItem :=
  let sellerName :=
    if (jsTrim row.sellerText.data).isEmpty then "Unknown Seller"
    else String.mk (jsTrim row.sellerText.data)
  let sellerId :=
    match row.sellerHref with
    | some href => ((href.splitOn "/profiles/").getD 1 "")
    | none => ""
  let listingId :=
    match row.rowId with
    | some id => if id = "" then genId idx else id
    | none => genId idx
  { name := itemInfo.name, exterior := itemInfo.exterior,
    price := pr.price, currency := pr.currency,
    listingId := some listingId, sellerId := some sellerId,
    sellerName := some sellerName }

/-- The row loop of `scrapeItemListings` (`auto-scheduler.ts` variant): stops
once `items.length >= options.count`, and pushes a candidate only under
`if (price > 0)` — rows whose parsed price is not positive are dropped. -/
def itemListingsLoop (itemInfo : NameExterior) (count : Nat) (genId : Nat → String) :
    Nat → List ListingRow → List SteamMarketItem → List SteamMarketItem
  | _, [], acc => acc
  | idx, row :: rest, acc =>
    if acc.length ≥ count then acc
    else
      let pr := parsePrice row.priceText
      if 0 < pr.price then
        itemListingsLoop itemInfo count genId (idx + 1) rest
          (acc ++ [directItem itemInfo genId idx row pr])
      else itemListingsLoop itemInfo count genId (idx + 1) rest acc

/-- `SteamMarketScraper.scrapeItemListings` after the HTTP fetch: page-level
name/tier from `$('title').text() || $('.breadcrumb').text()`, the row loop,
then post-processing. -/
def scrapeItemListings (pageTitle breadcrumb : String) (rows : List ListingRow)
    (options : ScrapingOptions) (genId : Nat → String) : List SteamMarketItem :=
  let itemInfo := extractNameAndExterior (if pageTitle = "" then breadcrumb else pageTitle)
  postProcess options (itemListingsLoop itemInfo options.count genId 0 rows [])

/-- One element of the structured JSON `results` list. -/
structure SearchResult where
  name : Option String := none
  sellPriceText : Option String := none
  salePriceText : Option String := none
  listingid : Option String := none
  assetId : Option String := none
deriving DecidableEq, Repr

/-- JS `a || b` on an optional string (`undefined` and `""` are falsy). -/
def jsOrElseStr (a : Option String) (b : String) : String :=
  match a with
  | some s => if s = "" then b else s
  | none => b

/-- Candidate built for one JSON search result in the `auto-scheduler.ts`
variant (`scrapeSearchResults`): no price condition. -/
def searchCandidate (genId : Nat → String) (idx : Nat) (r : SearchResult) :
    SteamMarketItem :=
  let fullName := r.name.getD ""
  let ne := extractNameAndExterior fullName
  let pr := parsePrice (jsOrElseStr r.sellPriceText (jsOrElseStr r.salePriceText ""))
  { name := ne.name, exterior := ne.exterior, price := pr.price, currency := pr.currency,
    listingId := some (jsOrElseStr r.listingid (genId idx)),
    sellerId := some (r.assetId.getD ""),
    sellerName := some "Search Result" }

/-- The JSON result loop of `scrapeSearchResults` (`auto-scheduler.ts`
variant): one push per result, stopping once `items.length >= count`. -/
def searchResultsLoop (genId : Nat → String) (count : Nat) :
    Nat → List SearchResult → List SteamMarketItem → List SteamMarketItem
  | _, [], acc => acc
  | idx, r :: rest, acc =>
    if acc.length ≥ count then acc
    else searchResultsLoop genId count (idx + 1) rest (acc ++ [searchCandidate genId idx r])

/-- Candidate built for one JSON search result in the legacy
`steam-scraper.ts` variant (`scrapeMarketPage`): only name/exterior and
price/currency fields. -/
def legacySearchCandidate (r : SearchResult) : SteamMarketItem :=
  let fullName := r.name.getD ""
  let ne := extractNameAndExterior fullName
  let pr := parsePrice (jsOrElseStr r.sellPriceText (jsOrElseStr r.salePriceText ""))
  { name := ne.name, exterior := ne.exterior, price := pr.price, currency := pr.currency }

/-- The JSON result loop of the legacy `scrapeMarketPage`
(`steam-scraper.ts` lines 66–79): the body contains two identical
`items.push({ name, exterior, price, currency })` statements, so every result
is pushed twice; the `items.length >= count` guard runs only at the top of
each iteration. -/
def legacySearchResultsLoop (count : Nat) :
    List SearchResult → List SteamMarketItem → List SteamMarketItem
  | [], acc => acc
  | r :: rest, acc =>
    if acc.length ≥ count then acc
    else
      legacySearchResultsLoop count rest
        (acc ++ [legacySearchCandidate r, legacySearchCandidate r])

/-- `scrapeSearchResults` (`auto-scheduler.ts`) on a structured JSON payload:
loop then post-processing. -/
def scrapeSearchResults (results : List SearchResult) (options : ScrapingOptions)
    (genId : Nat → String) : List SteamMarketItem :=
  postProcess options (searchResultsLoop genId (renderCount options.count) 0 results [])

/-- Legacy `scrapeMarketPage` (`steam-scraper.ts`) on a structured JSON
payload: duplicate-push loop then post-processing. -/
def scrapeMarketPageSearch (results : List SearchResult) (options : ScrapingOptions) :
    List SteamMarketItem :=
  postProcess options (legacySearchResultsLoop (renderCount options.count) results [])

/-! ### Derived/composite operations and concrete fixtures used by the claims -/

def w8skin : Skin :=
  { name := "AWP", exterior := "Factory New", url := "u",
    skindata := [{ timestamp := 0, price := 3, currency := "$" }] }

def w8d : TrackermanData := ⟨[w8skin]⟩

def w10settings : TrackermanSettings :=
  { autoScheduler := { enabled := true, intervalMinutes := 30, lastRun := none },
    discord := { enabled := false,
                 notifications := { priceUpdate := true, thresholdHigh := true,
                                    thresholdLow := true } },
    scraping := { timeoutMs := 10000, delayBetweenRequests := 1000, maxRetries := 3 } }

def c2Skin : Skin :=
  { name := "AK-47 Redline", exterior := "Field-Tested", url := "u",
    skindata := [], thresholds := some { high := some 0, low := none } }

def c5Result : SearchResult :=
  { name := some "AWP | Asiimov (Field-Tested)", sellPriceText := some "$3.50" }

def c4Row : ListingRow := { priceText := "Sold!" }

/-- Appending a sequence of observations through `addSkinData` (the spec's
`appendObservation`), left to right. -/
def appendAll (d : TrackermanData) (name exterior url : String)
    (obs : List SkinData) : TrackermanData :=
  obs.foldl (fun acc o => DataManager.addSkinData acc name exterior o url) d

def w1obs (p : ℚ) (t : Nat) : SkinData := { timestamp := t, price := p, currency := "$" }

def w1d : TrackermanData :=
  ⟨[{ name := "AK-47 | Redline", exterior := "Field-Tested", url := "u0", skindata := [] }]⟩

def w3item : SteamMarketItem :=
  { name := "AWP", exterior := "Factory New", price := 5, currency := "$" }

def w3skinA : Skin := { name := "A", exterior := "FT", url := "ua", skindata := [] }

def w3skinB : Skin :=
  { name := "B", exterior := "FT", url := "ub", skindata := [w1obs 9 0] }

def w3skinC : Skin := { name := "C", exterior := "FT", url := "uc", skindata := [] }

def w3fetch : Skin → Except Unit (List SteamMarketItem) :=
  fun s => if s.name = "B" then .error () else .ok [w3item]

def w3st : SchedState :=
  { data := ⟨[w3skinA, w3skinB, w3skinC]⟩, settings := w10settings }

/-- Canonical dot-decimal rendering of a non-negative rational whose
denominator divides a power of ten (every amount `parsePrice` produces):
scale to `q.den` decimal places — always enough for such a denominator — and
strip trailing zeros, yielding `digits` or `digits '.' digits`. -/
def renderCanonical (q : ℚ) : List Char :=
  if (stripZeros (padZeros q.den
      (natDigits (q.num.toNat * 10 ^ q.den / q.den % 10 ^ q.den)))).isEmpty then
    renderNat (q.num.toNat * 10 ^ q.den / q.den / 10 ^ q.den)
  else
    renderNat (q.num.toNat * 10 ^ q.den / q.den / 10 ^ q.den) ++ '.' ::
      stripZeros (padZeros q.den
        (natDigits (q.num.toNat * 10 ^ q.den / q.den % 10 ^ q.den)))

/-- The recognized plain-integer, dot-decimal and comma-decimal input forms of
the claim. -/
def recognizedInput (s : List Char) : Prop :=
  (s ≠ [] ∧ ∀ c ∈ s, c.isDigit = true) ∨
  (∃ a b, s = a ++ '.' :: b ∧ a ≠ [] ∧ b ≠ [] ∧
    (∀ c ∈ a, c.isDigit = true) ∧ (∀ c ∈ b, c.isDigit = true)) ∨
  (∃ a x y, s = a ++ [',', x, y] ∧ a ≠ [] ∧ (∀ c ∈ a, c.isDigit = true) ∧
    x.isDigit = true ∧ y.isDigit = true)

/-! ## Claim C8 -/

/-- C8: removing an untracked `(name, exterior)` pair leaves the store
unchanged and raises no error (removal is idempotent), and adding a skin whose
`(name, exterior)` key is already tracked fails with the duplicate error; the
source throws before any mutation, so the error branch produces no new state
and the existing histories are untouched. -/
theorem claim_C8 (d : TrackermanData) (name exterior : String) (skin : Skin) :
    (DataManager.getSkin d name exterior = none →
      DataManager.removeSkin d name exterior = d) ∧
    DataManager.removeSkin (DataManager.removeSkin d name exterior) name exterior =
      DataManager.removeSkin d name exterior ∧
    ((DataManager.getSkin d skin.name skin.exterior).isSome = true →
      DataManager.addSkin d skin =
        .error ("Skin " ++ skin.name ++ " (" ++ skin.exterior ++ ") already exists")) := by
  refine ⟨?_, ?_, ?_⟩
  · intro h
    have h' := List.find?_eq_none.mp h
    have hf : d.skins.filter (fun s => !skinKeyMatches name exterior s) = d.skins := by
      refine List.filter_eq_self.mpr fun a ha => ?_
      simp [h' a ha]
    cases d
    simpa [DataManager.removeSkin] using hf
  · simp [DataManager.removeSkin, List.filter_filter]
  · intro h
    simp [DataManager.addSkin, h]

/-- Witness for C8 at a concrete store. -/
theorem claim_C8_witness :
    DataManager.removeSkin w8d "M4" "Minimal Wear" = w8d ∧
    DataManager.addSkin w8d w8skin = .error "Skin AWP (Factory New) already exists" := by
  refine ⟨(claim_C8 w8d "M4" "Minimal Wear" w8skin).1 (by decide), ?_⟩
  have h := (claim_C8 w8d "M4" "Minimal Wear" w8skin).2.2 (by decide)
  simpa using h

/-! ## Claim C10 -/

/-- C10: a cycle executing over an empty tracked-item list performs no
fetches, emits no notifications, appends nothing and leaves the whole state —
in particular the Settings record — unchanged; the `lastRun` completion stamp
is persisted exactly when the cycle ran over at least one tracked item. -/
theorem claim_C10 (fetch : Skin → Except Unit (List SteamMarketItem))
    (sched : AutoSchedulerSettings) (ts tsRun : Nat) (st : SchedState) :
    (st.data.skins = [] →
      executeScheduledFetch fetch sched ts tsRun st =
        { state := st, notifications := [], fetched := [] }) ∧
    (st.data.skins ≠ [] →
      (executeScheduledFetch fetch sched ts tsRun st).state.settings.autoScheduler.lastRun
        = some tsRun) := by
  constructor
  · intro h
    simp [executeScheduledFetch, h]
  · intro h
    simp [executeScheduledFetch, h]

/-- Witness for C10: the empty store is left fully unchanged, and a one-item
store gets `lastRun` stamped. -/
theorem claim_C10_witness :
    executeScheduledFetch (fun _ => .error ()) ⟨true, 30, none⟩ 5 7
        { data := ⟨[]⟩, settings := w10settings } =
      { state := { data := ⟨[]⟩, settings := w10settings },
        notifications := [], fetched := [] } ∧
    (executeScheduledFetch (fun _ => .error ()) ⟨true, 30, none⟩ 5 7
        { data := ⟨[w8skin]⟩, settings := w10settings
        }).state.settings.autoScheduler.lastRun = some 7 :=
  ⟨(claim_C10 (fun _ => .error ()) ⟨true, 30, none⟩ 5 7
      { data := ⟨[]⟩, settings := w10settings }).1 rfl,
   (claim_C10 (fun _ => .error ()) ⟨true, 30, none⟩ 5 7
      { data := ⟨[w8skin]⟩, settings := w10settings }).2 (by simp)⟩

/-! ## Claim C2 -/

/-- C2 counterexample: for a fresh item (no prior observation) with a
configured high threshold of `0` and a new price of `10`, the claim predicts
no price-change intent (no prior current observation exists) and a
high-threshold intent (`10 ≥ 0` with the threshold configured); the scheduler
code emits exactly a price-change intent and no high-threshold intent
(`!previousData` makes `priceChanged` true, and the JS truthiness test
`skin.thresholds.high &&` skips a zero threshold). -/
theorem claim_C2_counterexample :
    schedulerAlertIntents c2Skin 10 = [Intent.priceChange] ∧
    Intent.thresholdHigh ∉ schedulerAlertIntents c2Skin 10 := by
  constructor
  · rfl
  · simp [schedulerAlertIntents, c2Skin, thresholdIntents]

/-- C2 as amended: in the scheduler variant (`executeScheduledFetch`) a
price-change intent is emitted iff there is no prior observation or the last
stored price differs from the new one, while in the service variant
(`checkAndSendNotifications`, which receives the post-append record) it is
emitted iff a prior observation exists and differs; a high-threshold intent is
emitted iff a high threshold is configured with a nonzero value and the new
price is `≥` it (boundary inclusive), a low-threshold intent iff a nonzero low
threshold is configured and the new price is `≤` it; the three checks are
independent, each intent is emitted at most once, so one observation yields up
to three intents. -/
theorem claim_C2_amended (skin : Skin) (itemPrice : ℚ) (newData : SkinData) :
    (Intent.priceChange ∈ schedulerAlertIntents skin itemPrice ↔
      skin.skindata.getLast? = none ∨
        ∃ prev, skin.skindata.getLast? = some prev ∧ prev.price ≠ itemPrice) ∧
    (Intent.thresholdHigh ∈ schedulerAlertIntents skin itemPrice ↔
      ∃ t high, skin.thresholds = some t ∧ t.high = some high ∧ high ≠ 0 ∧
        high ≤ itemPrice) ∧
    (Intent.thresholdLow ∈ schedulerAlertIntents skin itemPrice ↔
      ∃ t low, skin.thresholds = some t ∧ t.low = some low ∧ low ≠ 0 ∧
        itemPrice ≤ low) ∧
    (Intent.priceChange ∈ serviceAlertIntents skin newData ↔
      1 < skin.skindata.length ∧
        ∃ prev, skin.skindata.get? (skin.skindata.length - 2) = some prev ∧
          prev.price ≠ newData.price) ∧
    (Intent.thresholdHigh ∈ serviceAlertIntents skin newData ↔
      ∃ t high, skin.thresholds = some t ∧ t.high = some high ∧ high ≠ 0 ∧
        high ≤ newData.price) ∧
    (Intent.thresholdLow ∈ serviceAlertIntents skin newData ↔
      ∃ t low, skin.thresholds = some t ∧ t.low = some low ∧ low ≠ 0 ∧
        newData.price ≤ low) ∧
    List.Sublist (schedulerAlertIntents skin itemPrice)
      [Intent.priceChange, Intent.thresholdHigh, Intent.thresholdLow] ∧
    List.Sublist (serviceAlertIntents skin newData)
      [Intent.priceChange, Intent.thresholdHigh, Intent.thresholdLow] := by
  have hmem : ∀ (i : Intent) (th : Option Thresholds) (price : ℚ),
      (i ∈ thresholdIntents th price ↔
        (i = Intent.thresholdHigh ∧
          ∃ t high, th = some t ∧ t.high = some high ∧ high ≠ 0 ∧ high ≤ price) ∨
        (i = Intent.thresholdLow ∧
          ∃ t low, th = some t ∧ t.low = some low ∧ low ≠ 0 ∧ price ≤ low)) := by
    intro i th price
    cases th with
    | none => simp [thresholdIntents]
    | some t =>
      cases hh : t.high <;> cases hl : t.low <;>
        simp only [thresholdIntents, hh, hl] <;> (try split_ifs) <;>
          cases i <;> simp_all
  have hsub : ∀ (th : Option Thresholds) (price : ℚ),
      List.Sublist (thresholdIntents th price)
        [Intent.thresholdHigh, Intent.thresholdLow] := by
    intro th price
    cases th with
    | none => simp [thresholdIntents]
    | some t =>
      cases hh : t.high <;> cases hl : t.low <;>
        simp only [thresholdIntents, hh, hl] <;> (try split_ifs) <;> simp
  refine ⟨?_, ?_, ?_, ?_, ?_, ?_, ?_, ?_⟩
  · simp only [schedulerAlertIntents, List.mem_append, hmem]
    cases hl : skin.skindata.getLast? with
    | none => simp
    | some prev =>
      by_cases hp : prev.price = itemPrice <;> simp [hp]
  · simp only [schedulerAlertIntents, List.mem_append, hmem]
    cases skin.skindata.getLast? with
    | none => simp
    | some prev => split_ifs <;> simp
  · simp only [schedulerAlertIntents, List.mem_append, hmem]
    cases skin.skindata.getLast? with
    | none => simp
    | some prev => split_ifs <;> simp
  · simp only [serviceAlertIntents, List.mem_append, hmem]
    by_cases hlen : 1 < skin.skindata.length
    · simp only [if_pos hlen]
      cases hg : skin.skindata.get? (skin.skindata.length - 2) with
      | none =>
        exfalso
        have : skin.skindata.length - 2 < skin.skindata.length := by omega
        exact absurd hg (by simp [List.get?_eq_getElem?, List.getElem?_eq_some_iff]; omega)
      | some prev =>
        by_cases hp : prev.price = newData.price <;> simp [hp, hlen, hg]
    · simp [if_neg hlen, hlen]
  · simp only [serviceAlertIntents, List.mem_append, hmem]
    split_ifs with hlen
    · cases skin.skindata.get? (skin.skindata.length - 2) with
      | none => simp
      | some prev => by_cases hp : prev.price = newData.price <;> simp [hp]
    · simp
  · simp only [serviceAlertIntents, List.mem_append, hmem]
    split_ifs with hlen
    · cases skin.skindata.get? (skin.skindata.length - 2) with
      | none => simp
      | some prev => by_cases hp : prev.price = newData.price <;> simp [hp]
    · simp
  · simp only [schedulerAlertIntents]
    have := hsub skin.thresholds itemPrice
    split_ifs
    · exact List.Sublist.cons₂ _ (this.trans (by simp))
    · exact this.trans (by simp)
  · simp only [serviceAlertIntents]
    have := hsub skin.thresholds newData.price
    split_ifs with h1
    · cases skin.skindata.get? (skin.skindata.length - 2) with
      | none => simpa using this.trans (by simp)
      | some prev =>
        by_cases hp : prev.price = newData.price
        · simpa [hp] using this.trans (by simp)
        · simpa [hp] using
            List.Sublist.cons₂ Intent.priceChange (this.trans (by simp))
    · simpa using this.trans (by simp)

/-! ## Claim C5 -/

/-- C5: the claim (and the spec, which flags the duplication as a defect) says
each structured JSON search result yields exactly one candidate, in result
order, before post-processing.  Evaluating the code: the legacy
`scrapeMarketPage` loop (`steam-scraper.ts` lines 66–79) pushes every result
twice — one result yields two identical candidates even with
`options.count = 1` — while the `auto-scheduler.ts` variant
(`scrapeSearchResults`) yields exactly one. -/
theorem claim_C5_bug_eval :
    legacySearchResultsLoop (renderCount 1) [c5Result] [] =
      [legacySearchCandidate c5Result, legacySearchCandidate c5Result] ∧
    (legacySearchResultsLoop (renderCount 1) [c5Result] []).length = 2 ∧
    searchResultsLoop (fun _ => "generated") (renderCount 1) 0 [c5Result] [] =
      [searchCandidate (fun _ => "generated") 0 c5Result] :=
  ⟨rfl, rfl, rfl⟩

/-! ## Claim C4 -/

/-- C4 counterexample: a direct-listing page with one row whose price text is
unparseable (normalized price `0`) yields no candidate at all — the
direct-listing strategy (`scrapeItemListings`, guard `if (price > 0)`) drops
the zero-price candidate during extraction, contradicting the claim that
neither strategy ever drops a candidate solely for a non-positive price. -/
theorem claim_C4_counterexample :
    (parsePrice "Sold!").price = 0 ∧
    scrapeItemListings "AWP | Asiimov (Field-Tested)" "" [c4Row]
      { priceType := .lowest, count := 1 } (fun _ => "generated") = [] :=
  ⟨rfl, by decide⟩

/-- Closed form of the `auto-scheduler.ts` JSON search-result loop: one
candidate per result element, in result order, truncated by the count guard —
with no condition on the parsed price. -/
theorem searchResultsLoop_closed (genId : Nat → String) (count : Nat) :
    ∀ (results : List SearchResult) (idx : Nat) (acc : List SteamMarketItem),
      acc.length ≤ count →
      searchResultsLoop genId count idx results acc =
        acc ++ ((results.enumFrom idx).take (count - acc.length)).map
          (fun p => searchCandidate genId p.1 p.2) := by
  intro results
  induction results with
  | nil => intro idx acc h; simp [searchResultsLoop]
  | cons r rest ih =>
    intro idx acc h
    by_cases hc : acc.length ≥ count
    · have h0 : count - acc.length = 0 := by omega
      simp [searchResultsLoop, hc, h0]
    · have h1 : count - acc.length = (count - (acc.length + 1)) + 1 := by omega
      rw [searchResultsLoop, if_neg hc,
        ih (idx + 1) (acc ++ [searchCandidate genId idx r]) (by simp; omega)]
      simp [List.enumFrom, h1]

/-- Closed form of the direct-listing row loop (`scrapeItemListings`): it
keeps, in order, exactly the rows whose parsed price is positive, truncated by
the count guard. -/
theorem itemListingsLoop_closed (itemInfo : NameExterior) (genId : Nat → String)
    (count : Nat) :
    ∀ (rows : List ListingRow) (idx : Nat) (acc : List SteamMarketItem),
      acc.length ≤ count →
      itemListingsLoop itemInfo count genId idx rows acc =
        acc ++ (((rows.enumFrom idx).filter
            (fun p => decide (0 < (parsePrice p.2.priceText).price))).map
            (fun p => directItem itemInfo genId p.1 p.2 (parsePrice p.2.priceText))).take
          (count - acc.length) := by
  intro rows
  induction rows with
  | nil => intro idx acc h; simp [itemListingsLoop]
  | cons row rest ih =>
    intro idx acc h
    by_cases hc : acc.length ≥ count
    · have h0 : count - acc.length = 0 := by omega
      simp [itemListingsLoop, hc, h0]
    · by_cases hp : 0 < (parsePrice row.priceText).price
      · have h1 : count - acc.length = (count - (acc.length + 1)) + 1 := by omega
        rw [itemListingsLoop, if_neg hc]
        simp only [hp, if_pos]
        rw [ih (idx + 1)
          (acc ++ [directItem itemInfo genId idx row (parsePrice row.priceText)])
          (by simp; omega)]
        simp [List.enumFrom, hp, h1]
      · rw [itemListingsLoop, if_neg hc]
        simp only [hp, if_neg, if_false]
        rw [ih (idx + 1) acc (by omega)]
        simp [List.enumFrom, hp]

/-- C4 as amended: the search-results strategy never drops a candidate because
of its price — its extraction loop produces exactly one candidate per
structured JSON result element, in order (so zero-price candidates survive
extraction; post-processing filters only by exterior, sorts and truncates,
never by price) — whereas the direct-listing strategy drops, during
extraction and before post-processing, exactly those rows whose normalized
price is not positive. -/
theorem claim_C4_amended (genId : Nat → String) (count : Nat)
    (itemInfo : NameExterior) (results : List SearchResult) (rows : List ListingRow) :
    searchResultsLoop genId count 0 results [] =
      ((results.enumFrom 0).take count).map (fun p => searchCandidate genId p.1 p.2) ∧
    itemListingsLoop itemInfo count genId 0 rows [] =
      (((rows.enumFrom 0).filter
          (fun p => decide (0 < (parsePrice p.2.priceText).price))).map
          (fun p => directItem itemInfo genId p.1 p.2 (parsePrice p.2.priceText))).take
        count := by
  constructor
  · simpa using searchResultsLoop_closed genId count results 0 [] (by simp)
  · simpa using itemListingsLoop_closed itemInfo genId count rows 0 [] (by simp)

/-! ## Store lemmas shared by C1 and C3 -/

theorem find?_updateFirst (p : Skin → Bool) (f : Skin → Skin)
    (hf : ∀ s, p (f s) = p s) :
    ∀ l : List Skin, (updateFirst p f l).find? p = (l.find? p).map f := by
  intro l
  induction l with
  | nil => simp [updateFirst]
  | cons s rest ih =>
    by_cases hs : p s
    · rw [updateFirst, if_pos hs, List.find?_cons_of_pos _ ((hf s).trans (by simp [hs])),
        List.find?_cons_of_pos _ hs]
      rfl
    · rw [updateFirst, if_neg hs, List.find?_cons_of_neg _ hs,
        List.find?_cons_of_neg _ hs, ih]

theorem find?_updateFirst_ne (p q : Skin → Bool) (f : Skin → Skin)
    (hpq : ∀ s, p s = true → q s = false)
    (hf : ∀ s, p (f s) = p s) :
    ∀ l : List Skin, (updateFirst q f l).find? p = l.find? p := by
  intro l
  induction l with
  | nil => simp [updateFirst]
  | cons s rest ih =>
    by_cases hq : q s
    · have hps : p s = false := by
        cases hp : p s
        · rfl
        · exact absurd (hpq s hp) (by simp [hq])
      rw [updateFirst, if_pos hq, List.find?_cons_of_neg _ (by simp [hf s, hps]),
        List.find?_cons_of_neg _ (by simp [hps])]
    · by_cases hp : p s
      · rw [updateFirst, if_neg hq, List.find?_cons_of_pos _ hp,
          List.find?_cons_of_pos _ hp]
      · rw [updateFirst, if_neg hq, List.find?_cons_of_neg _ hp,
          List.find?_cons_of_neg _ hp, ih]

theorem find?_append_single (p : Skin → Bool) (l : List Skin) (a : Skin)
    (ha : p a = false) : (l ++ [a]).find? p = l.find? p := by
  induction l with
  | nil => simp [ha]
  | cons s rest ih => by_cases hs : p s <;> simp [hs, ih]

theorem markExpired_append (l₁ l₂ : List SkinData) :
    DataManager.markExpired (l₁ ++ l₂) =
      DataManager.markExpired l₁ ++ DataManager.markExpired l₂ :=
  List.map_append _ _ _

theorem markExpired_markExpired (l : List SkinData) :
    DataManager.markExpired (DataManager.markExpired l) = DataManager.markExpired l := by
  simp [DataManager.markExpired, List.map_map]

theorem getSkin_addSkinData_self (d : TrackermanData) (name exterior : String)
    (s : Skin) (hs : DataManager.getSkin d name exterior = some s)
    (sd : SkinData) (url : String) :
    DataManager.getSkin (DataManager.addSkinData d name exterior sd url) name exterior =
      some { s with
             skindata :=
               DataManager.markExpired s.skindata ++ [{ sd with expired := false }],
             url := url } := by
  simp only [DataManager.addSkinData, hs]
  unfold DataManager.getSkin at hs ⊢
  rw [find?_updateFirst _ _ (fun t => by simp [skinKeyMatches]), hs]
  rfl

theorem getSkin_addSkinData_ne (d : TrackermanData) (name exterior name2 exterior2 : String)
    (sd : SkinData) (url : String) (h : ¬(name2 = name ∧ exterior2 = exterior)) :
    DataManager.getSkin (DataManager.addSkinData d name2 exterior2 sd url) name exterior =
      DataManager.getSkin d name exterior := by
  have hpq : ∀ s : Skin, skinKeyMatches name exterior s = true →
      skinKeyMatches name2 exterior2 s = false := by
    intro s hp
    simp only [skinKeyMatches, Bool.and_eq_true, beq_iff_eq] at hp
    simp only [skinKeyMatches, Bool.and_eq_false_iff, beq_eq_false_iff_ne, ne_eq]
    by_cases hn : s.name = name2
    · right
      intro he
      exact h ⟨hn ▸ hp.1.symm ▸ rfl, he ▸ hp.2.symm ▸ rfl⟩
    · left
      exact hn
  cases hg : DataManager.getSkin d name2 exterior2 with
  | some s2 =>
    simp only [DataManager.addSkinData, hg]
    simp only [DataManager.getSkin]
    exact find?_updateFirst_ne _ _ _ hpq (fun t => by simp [skinKeyMatches]) d.skins
  | none =>
    simp only [DataManager.addSkinData, hg]
    simp only [DataManager.getSkin]
    refine find?_append_single _ _ _ ?_
    simp only [skinKeyMatches, Bool.and_eq_false_iff, beq_eq_false_iff_ne, ne_eq]
    by_cases hn : name2 = name
    · right
      intro he
      exact h ⟨hn, he⟩
    · left
      exact hn

theorem getSkin_of_mem_pairwise :
    ∀ (l : List Skin),
      l.Pairwise (fun a b => ¬(a.name = b.name ∧ a.exterior = b.exterior)) →
      ∀ skin ∈ l, l.find? (skinKeyMatches skin.name skin.exterior) = some skin := by
  intro l
  induction l with
  | nil => simp
  | cons s rest ih =>
    intro hp skin hmem
    rcases List.mem_cons.mp hmem with rfl | hmem2
    · rw [List.find?_cons_of_pos _ (by simp [skinKeyMatches])]
    · have hrel := (List.pairwise_cons.mp hp).1 skin hmem2
      rw [List.find?_cons_of_neg _ ?_]
      · exact ih (List.pairwise_cons.mp hp).2 skin hmem2
      · simp only [skinKeyMatches, Bool.and_eq_true, beq_iff_eq, not_and]
        intro hn he
        exact hrel ⟨hn, he⟩

/-! ## Claim C1 -/

theorem appendAll_getSkin (name exterior url : String) :
    ∀ (front : List SkinData) (last : SkinData) (d : TrackermanData) (s : Skin),
      DataManager.getSkin d name exterior = some s →
      DataManager.getSkin (appendAll d name exterior url (front ++ [last]))
          name exterior =
        some { s with
               skindata :=
                 DataManager.markExpired (s.skindata ++ front) ++
                   [{ last with expired := false }],
               url := url } := by
  intro front
  induction front with
  | nil =>
    intro last d s hs
    simpa [appendAll] using getSkin_addSkinData_self d name exterior s hs last url
  | cons o front' ih =>
    intro last d s hs
    have step := getSkin_addSkinData_self d name exterior s hs o url
    have h2 := ih last (DataManager.addSkinData d name exterior o url) _ step
    simp only [appendAll, List.cons_append, List.foldl_cons] at h2 ⊢
    rw [h2]
    simp [markExpired_append, markExpired_markExpired, DataManager.markExpired]

/-- C1: appending `N ≥ 1` observations (`front ++ [last]`, so `N =
front.length + 1`) to a fresh tracked item leaves it with the observations in
original insertion order, the first `N − 1` superseded (`expired = true`) and
exactly the most recent one non-superseded; the current view
(`getActiveSkin`) then returns a history of length 1 holding the last
observation, and the full view (`getSkin`) a history of length `N`. -/
theorem claim_C1 (d : TrackermanData) (name exterior url : String) (s : Skin)
    (front : List SkinData) (last : SkinData)
    (hs : DataManager.getSkin d name exterior = some s) (h0 : s.skindata = []) :
    DataManager.getSkin (appendAll d name exterior url (front ++ [last]))
        name exterior =
      some { s with
             skindata :=
               DataManager.markExpired front ++ [{ last with expired := false }],
             url := url } ∧
    DataManager.getActiveSkin (appendAll d name exterior url (front ++ [last]))
        name exterior =
      some { s with skindata := [{ last with expired := false }], url := url } ∧
    (DataManager.markExpired front ++ [{ last with expired := false }]).length =
      (front ++ [last]).length ∧
    ((DataManager.markExpired front ++ [{ last with expired := false }]).filter
        fun o => !o.expired) = [{ last with expired := false }] ∧
    ((DataManager.markExpired front ++ [{ last with expired := false }]).filter
        fun o => o.expired) = DataManager.markExpired front ∧
    ∀ i, i < front.length →
      (DataManager.markExpired front ++ [{ last with expired := false }]).get? i =
        (front.get? i).map fun o => { o with expired := true } := by
  have hmain := appendAll_getSkin name exterior url front last d s hs
  rw [h0] at hmain
  simp only [List.nil_append] at hmain
  refine ⟨hmain, ?_, ?_, ?_, ?_, ?_⟩
  · unfold DataManager.getActiveSkin
    rw [hmain]
    simp [DataManager.markExpired, List.filter_append, List.filter_map]
  · simp [DataManager.markExpired]
  · simp [DataManager.markExpired, List.filter_append, List.filter_map]
  · simp only [DataManager.markExpired, List.filter_append, List.filter_map]
    have hft : List.filter
        ((fun (o : SkinData) => o.expired) ∘ fun data =>
          ({ data with expired := true } : SkinData)) front = front :=
      List.filter_eq_self.mpr (fun a _ => rfl)
    rw [hft]
    simp
  · intro i hi
    rw [List.get?_append (by simpa [DataManager.markExpired] using hi)]
    simp [DataManager.markExpired, List.get?_map]

/-- Witness for C1: three appends to a fresh item. -/
theorem claim_C1_witness :
    DataManager.getSkin
        (appendAll w1d "AK-47 | Redline" "Field-Tested" "u1"
          ([w1obs 10 1, w1obs 12 2] ++ [w1obs 11 3]))
        "AK-47 | Redline" "Field-Tested" =
      some { name := "AK-47 | Redline", exterior := "Field-Tested", url := "u1",
             skindata :=
               DataManager.markExpired [w1obs 10 1, w1obs 12 2] ++
                 [{ w1obs 11 3 with expired := false }] } ∧
    DataManager.getActiveSkin
        (appendAll w1d "AK-47 | Redline" "Field-Tested" "u1"
          ([w1obs 10 1, w1obs 12 2] ++ [w1obs 11 3]))
        "AK-47 | Redline" "Field-Tested" =
      some { name := "AK-47 | Redline", exterior := "Field-Tested", url := "u1",
             skindata := [{ w1obs 11 3 with expired := false }] } := by
  have h := claim_C1 w1d "AK-47 | Redline" "Field-Tested" "u1"
    { name := "AK-47 | Redline", exterior := "Field-Tested", url := "u0", skindata := [] }
    [w1obs 10 1, w1obs 12 2] (w1obs 11 3) (by decide) rfl
  exact ⟨h.1, h.2.1⟩

/-! ## Claim C3 -/

theorem cycleStep_data_error (fetch : Skin → Except Unit (List SteamMarketItem))
    (ts : Nat) (acc : CycleOutcome) (skin : Skin) (h : fetch skin = .error ()) :
    (cycleStep fetch ts acc skin).state.data = acc.state.data := by
  simp only [cycleStep, h]

theorem cycleStep_data_ok (fetch : Skin → Except Unit (List SteamMarketItem))
    (ts : Nat) (acc : CycleOutcome) (skin : Skin) (item : SteamMarketItem)
    (rest : List SteamMarketItem) (h : fetch skin = .ok (item :: rest)) :
    (cycleStep fetch ts acc skin).state.data =
      DataManager.addSkinData acc.state.data skin.name skin.exterior
        { timestamp := ts, price := item.price, currency := item.currency,
          listingId := item.listingId, sellerId := item.sellerId } skin.url := by
  simp only [cycleStep, h]

theorem cycleStep_data_ne (fetch : Skin → Except Unit (List SteamMarketItem))
    (ts : Nat) (acc : CycleOutcome) (t : Skin) (name exterior : String)
    (h : ¬(t.name = name ∧ t.exterior = exterior)) :
    DataManager.getSkin (cycleStep fetch ts acc t).state.data name exterior =
      DataManager.getSkin acc.state.data name exterior := by
  unfold cycleStep
  cases ht : fetch t with
  | error e => rfl
  | ok items =>
    cases items with
    | nil => rfl
    | cons item rest => exact getSkin_addSkinData_ne _ _ _ _ _ _ _ h

theorem foldl_cycleStep_data_ne (fetch : Skin → Except Unit (List SteamMarketItem))
    (ts : Nat) (name exterior : String) :
    ∀ (L : List Skin) (acc : CycleOutcome),
      (∀ t ∈ L, ¬(t.name = name ∧ t.exterior = exterior)) →
      DataManager.getSkin (L.foldl (cycleStep fetch ts) acc).state.data name exterior =
        DataManager.getSkin acc.state.data name exterior := by
  intro L
  induction L with
  | nil => intro acc h; rfl
  | cons t rest ih =>
    intro acc h
    rw [List.foldl_cons, ih _ (fun u hu => h u (by simp [hu])),
      cycleStep_data_ne fetch ts acc t name exterior (h t (by simp))]

/-- C3: a scheduled cycle over a non-empty item list (with pairwise distinct
`(name, exterior)` keys, the store invariant) always completes: the `lastRun`
completion stamp is persisted into Settings after the last item; every item
whose fetch failed is left exactly as it was; and every item whose fetch
succeeded with a candidate gets that candidate appended as its new current
observation (all earlier observations superseded, URL refreshed). -/
theorem claim_C3 (fetch : Skin → Except Unit (List SteamMarketItem))
    (sched : AutoSchedulerSettings) (ts tsRun : Nat) (st : SchedState)
    (hne : st.data.skins ≠ [])
    (hpair : st.data.skins.Pairwise
      (fun a b => ¬(a.name = b.name ∧ a.exterior = b.exterior))) :
    (executeScheduledFetch fetch sched ts tsRun st).state.settings.autoScheduler.lastRun
      = some tsRun ∧
    ∀ skin ∈ st.data.skins,
      (fetch skin = .error () →
        DataManager.getSkin (executeScheduledFetch fetch sched ts tsRun st).state.data
          skin.name skin.exterior = some skin) ∧
      ∀ item rest, fetch skin = .ok (item :: rest) →
        DataManager.getSkin (executeScheduledFetch fetch sched ts tsRun st).state.data
          skin.name skin.exterior =
        some { skin with
               skindata :=
                 DataManager.markExpired skin.skindata ++
                   [{ timestamp := ts, price := item.price, currency := item.currency,
                      listingId := item.listingId, sellerId := item.sellerId,
                      sellerName := none, expired := false }] } := by
  have hiff : st.data.skins.isEmpty = false := by
    cases h : st.data.skins
    · exact absurd h hne
    · rfl
  constructor
  · simp only [executeScheduledFetch, hiff, Bool.false_eq_true, if_false]
  · intro skin hmem
    obtain ⟨L₁, L₂, hsplit⟩ := List.append_of_mem hmem
    have hpair' := hpair
    rw [hsplit, List.pairwise_append] at hpair'
    obtain ⟨hp1, hp2, hcross⟩ := hpair'
    have hp2' := List.pairwise_cons.mp hp2
    have hL₁ : ∀ t ∈ L₁, ¬(t.name = skin.name ∧ t.exterior = skin.exterior) :=
      fun t ht => hcross t ht skin (by simp)
    have hL₂ : ∀ t ∈ L₂, ¬(t.name = skin.name ∧ t.exterior = skin.exterior) := by
      intro t ht hc
      exact hp2'.1 t ht ⟨hc.1.symm, hc.2.symm⟩
    have hstart : DataManager.getSkin st.data skin.name skin.exterior = some skin :=
      getSkin_of_mem_pairwise st.data.skins hpair skin hmem
    have hexec : (executeScheduledFetch fetch sched ts tsRun st).state.data =
        (st.data.skins.foldl (cycleStep fetch ts)
          { state := st, notifications := [], fetched := [] }).state.data := by
      simp only [executeScheduledFetch, hiff, Bool.false_eq_true, if_false]
    have hacc1 : DataManager.getSkin
        (L₁.foldl (cycleStep fetch ts)
          { state := st, notifications := [], fetched := [] }).state.data
        skin.name skin.exterior = some skin := by
      rw [foldl_cycleStep_data_ne fetch ts skin.name skin.exterior L₁ _ hL₁]
      exact hstart
    constructor
    · intro herr
      rw [hexec, hsplit, List.foldl_append, List.foldl_cons,
        foldl_cycleStep_data_ne fetch ts skin.name skin.exterior L₂ _ hL₂]
      have hdata := cycleStep_data_error fetch ts
        (L₁.foldl (cycleStep fetch ts)
          { state := st, notifications := [], fetched := [] }) skin herr
      rw [DataManager.getSkin, hdata, ← DataManager.getSkin]
      exact hacc1
    · intro item rest hok
      rw [hexec, hsplit, List.foldl_append, List.foldl_cons,
        foldl_cycleStep_data_ne fetch ts skin.name skin.exterior L₂ _ hL₂]
      have hdata := cycleStep_data_ok fetch ts
        (L₁.foldl (cycleStep fetch ts)
          { state := st, notifications := [], fetched := [] }) skin item rest hok
      rw [DataManager.getSkin, hdata, ← DataManager.getSkin]
      rw [getSkin_addSkinData_self _ _ _ _ hacc1]

/-- Witness for C3: three items, the middle fetch fails; the stamp is
persisted, item B is untouched and items A gets its observation appended. -/
theorem claim_C3_witness :
    (executeScheduledFetch w3fetch ⟨true, 30, none⟩ 5 7 w3st).state.settings.autoScheduler.lastRun
      = some 7 ∧
    DataManager.getSkin (executeScheduledFetch w3fetch ⟨true, 30, none⟩ 5 7 w3st).state.data
      "B" "FT" = some w3skinB ∧
    DataManager.getSkin (executeScheduledFetch w3fetch ⟨true, 30, none⟩ 5 7 w3st).state.data
      "A" "FT" =
      some { w3skinA with
             skindata :=
               DataManager.markExpired w3skinA.skindata ++
                 [{ timestamp := 5, price := w3item.price, currency := w3item.currency,
                    listingId := w3item.listingId, sellerId := w3item.sellerId,
                    sellerName := none, expired := false }] } := by
  have h := claim_C3 w3fetch ⟨true, 30, none⟩ 5 7 w3st (by decide) (by decide)
  exact ⟨h.1, (h.2 w3skinB (by decide)).1 rfl, (h.2 w3skinA (by decide)).2 w3item [] rfl⟩

/-! ## Claim C6 -/

theorem jsParseFloat?_nonneg (s : List Char) (q : ℚ) (h : jsParseFloat? s = some q) :
    0 ≤ q := by
  unfold jsParseFloat? at h
  split at h <;> dsimp only at h <;> split_ifs at h <;>
    first
      | (rw [← Option.some.inj h]; positivity)
      | simp at h

theorem getD_jsParseFloat?_nonneg (s : List Char) : 0 ≤ (jsParseFloat? s).getD 0 := by
  cases hj : jsParseFloat? s with
  | none => simp
  | some q => simpa using jsParseFloat?_nonneg s q hj

theorem takeWhile_isDigit_eq_nil {l : List Char} (h : ∀ c ∈ l, c.isDigit = false) :
    l.takeWhile Char.isDigit = [] := by
  cases l with
  | nil => rfl
  | cons c rest => simp [List.takeWhile_cons, h c (by simp)]

theorem jsParseFloat?_no_digit {s : List Char} (h : ∀ c ∈ s, c.isDigit = false) :
    jsParseFloat? s = none := by
  cases s with
  | nil => rfl
  | cons c rest =>
    have hc : c.isDigit = false := h c (by simp)
    simp only [jsParseFloat?, List.takeWhile_cons, List.dropWhile_cons, hc,
      Bool.false_eq_true, if_false]
    split
    · next rest2 heq =>
      have h2 : rest = rest2 := (List.cons.injEq _ _ _ _ ▸ heq).2
      have hfr : rest2.takeWhile Char.isDigit = [] :=
        takeWhile_isDigit_eq_nil (fun a ha => h a (by simp [h2 ▸ ha]))
      simp [hfr]
    · simp

theorem mem_replaceFirstComma {c : Char} :
    ∀ {l : List Char}, c ∈ replaceFirstComma l → c = '.' ∨ c ∈ l := by
  intro l
  induction l with
  | nil => simp [replaceFirstComma]
  | cons a rest ih =>
    simp only [replaceFirstComma]
    split_ifs with ha
    · intro hm
      rcases List.mem_cons.mp hm with rfl | hm2
      · exact Or.inl rfl
      · exact Or.inr (List.mem_cons_of_mem _ hm2)
    · intro hm
      rcases List.mem_cons.mp hm with rfl | hm2
      · exact Or.inr (by simp)
      · rcases ih hm2 with h1 | h2
        · exact Or.inl h1
        · exact Or.inr (by simp [h2])

/-- C6: `parsePrice` is total (it is a Lean function, so it terminates and
never raises), its amount is always non-negative, an input containing no digit
(hence unparseable as a number) yields amount `0`, and an input containing no
Unicode currency-symbol glyph yields the default currency `"$"`. -/
theorem claim_C6 (text : String) :
    0 ≤ (parsePrice text).price ∧
    ((∀ c ∈ text.data, c.isDigit = false) → (parsePrice text).price = 0) ∧
    ((∀ c ∈ text.data, isCurrencyChar c = false) → (parsePrice text).currency = "$") := by
  refine ⟨?_, ?_, ?_⟩
  · simp only [parsePrice]
    split_ifs <;> exact getD_jsParseFloat?_nonneg _
  · intro h
    have hnorm : ∀ c ∈ text.data.filter isPriceChar, c.isDigit = false :=
      fun c hc => h c (List.mem_of_mem_filter hc)
    simp only [parsePrice]
    split_ifs
    · rw [jsParseFloat?_no_digit (fun c hc => ?_)]
      · rfl
      · rcases mem_replaceFirstComma hc with rfl | hc2
        · rfl
        · exact hnorm c (List.mem_of_mem_filter hc2)
    · rw [jsParseFloat?_no_digit (fun c hc => ?_)]
      · rfl
      · rcases mem_replaceFirstComma hc with rfl | hc2
        · rfl
        · exact hnorm c hc2
    · rw [jsParseFloat?_no_digit (fun c hc => hnorm c (List.mem_of_mem_filter hc))]
      rfl
  · intro h
    simp only [parsePrice]
    rw [List.find?_eq_none.mpr (fun c hc => by simp [h c hc])]

/-- Witness for C6 at the digit-free, glyph-free input `"N/A"`. -/
theorem claim_C6_witness :
    0 ≤ (parsePrice "N/A").price ∧ (parsePrice "N/A").price = 0 ∧
    (parsePrice "N/A").currency = "$" :=
  ⟨(claim_C6 "N/A").1, (claim_C6 "N/A").2.1 (by decide),
   (claim_C6 "N/A").2.2 (by decide)⟩

/-! ## Claim C7 -/

theorem removeBoundedAux_sublist (kw : List Char) :
    ∀ (fuel : Nat) (prev : Option Char) (s : List Char),
      List.Sublist (removeBoundedAux kw fuel prev s) s := by
  intro fuel
  induction fuel with
  | zero => intro prev s; simp [removeBoundedAux]
  | succ n ih =>
    intro prev s
    cases s with
    | nil => simp [removeBoundedAux]
    | cons c rest =>
      rw [removeBoundedAux]
      split_ifs with h
      · exact (ih _ _).trans (List.drop_sublist _ _)
      · exact List.Sublist.cons₂ c (ih _ rest)

/-- C7 counterexample: the label `"Myfactory new knife"` contains exactly one
of the five tier keywords (`"Factory New"`, as a case-insensitive substring —
the code's own match condition) and no other.  The claim then requires the
keyword to be removed from the residual name; the code classifies the tier as
`"Factory New"` but removes nothing, because the word-boundary regex
`\bFactory New\b` does not match inside `"Myfactory"` — the keyword is still
contained in the returned name. -/
theorem claim_C7_counterexample :
    extractNameAndExterior "Myfactory new knife" =
      { name := "Myfactory new knife", exterior := "Factory New" } ∧
    exteriors.filter (fun ext => lowerContains "Myfactory new knife" ext) =
      ["Factory New"] ∧
    containsSeq (lowerStr "Factory New".data)
      (lowerStr (extractNameAndExterior "Myfactory new knife").name.data) = true :=
  ⟨by decide, by decide, by decide⟩

/-- C7 as amended: for a label matching none of the five keywords
(case-insensitively, as substrings) the classifier returns tier `"Unknown"`
and the whitespace-normalized label; for a label matching exactly one keyword
it returns that keyword as the tier and as the name the label with every
word-bounded, case-insensitive occurrence of that keyword removed (possibly
none, when the keyword occurs only inside a larger word), trimmed and
whitespace-collapsed; and the keyword removal only deletes characters — the
pre-normalization residue is always a subsequence of the label, so no other
text is introduced or reordered. -/
theorem claim_C7_amended (fullName : String) :
    ((∀ ext ∈ exteriors, lowerContains fullName ext = false) →
      extractNameAndExterior fullName =
        { name := String.mk (jsTrim (collapseWs fullName.data)),
          exterior := "Unknown" }) ∧
    (∀ ext ∈ exteriors, lowerContains fullName ext = true →
      (∀ ext2 ∈ exteriors, ext2 ≠ ext → lowerContains fullName ext2 = false) →
      extractNameAndExterior fullName =
        { name := String.mk (jsTrim (collapseWs (jsTrim (removeBounded ext fullName)))),
          exterior := ext }) ∧
    ∀ kw : String, List.Sublist (removeBounded kw fullName) fullName.data := by
  refine ⟨?_, ?_, ?_⟩
  · intro h
    have hfind : exteriors.find? (fun ext => lowerContains fullName ext) = none :=
      List.find?_eq_none.mpr (fun x hx => by simp [h x hx])
    simp [extractNameAndExterior, hfind]
  · intro ext hmem h1 h2
    have hmem' : ext = "Factory New" ∨ ext = "Minimal Wear" ∨ ext = "Field-Tested" ∨
        ext = "Well-Worn" ∨ ext = "Battle-Scarred" := by
      simpa [exteriors] using hmem
    have hget : ∀ e2, e2 ∈ exteriors → e2 ≠ ext → lowerContains fullName e2 = false := h2
    rcases hmem' with rfl | rfl | rfl | rfl | rfl
    · simp [extractNameAndExterior, exteriors, List.find?, h1]
    · have hFN := hget "Factory New" (by simp [exteriors]) (by decide)
      simp [extractNameAndExterior, exteriors, List.find?, h1, hFN]
    · have hFN := hget "Factory New" (by simp [exteriors]) (by decide)
      have hMW := hget "Minimal Wear" (by simp [exteriors]) (by decide)
      simp [extractNameAndExterior, exteriors, List.find?, h1, hFN, hMW]
    · have hFN := hget "Factory New" (by simp [exteriors]) (by decide)
      have hMW := hget "Minimal Wear" (by simp [exteriors]) (by decide)
      have hFT := hget "Field-Tested" (by simp [exteriors]) (by decide)
      simp [extractNameAndExterior, exteriors, List.find?, h1, hFN, hMW, hFT]
    · have hFN := hget "Factory New" (by simp [exteriors]) (by decide)
      have hMW := hget "Minimal Wear" (by simp [exteriors]) (by decide)
      have hFT := hget "Field-Tested" (by simp [exteriors]) (by decide)
      have hWW := hget "Well-Worn" (by simp [exteriors]) (by decide)
      simp [extractNameAndExterior, exteriors, List.find?, h1, hFN, hMW, hFT, hWW]
  · intro kw
    exact removeBoundedAux_sublist kw.data fullName.data.length none fullName.data

/-- Witness for C7 (amended): a single-keyword label and a no-keyword label. -/
theorem claim_C7_amended_witness :
    extractNameAndExterior "Karambit | Fade factory new" =
      { name := String.mk (jsTrim (collapseWs (jsTrim
          (removeBounded "Factory New" "Karambit | Fade factory new")))),
        exterior := "Factory New" } ∧
    extractNameAndExterior "Plain Label" =
      { name := String.mk (jsTrim (collapseWs ("Plain Label").data)),
        exterior := "Unknown" } :=
  ⟨(claim_C7_amended "Karambit | Fade factory new").2.1 "Factory New"
      (by simp [exteriors]) (by decide) (by decide),
   (claim_C7_amended "Plain Label").1 (by decide)⟩

/-! ## Claim C9: digit-list arithmetic -/

theorem valDigits_nil : valDigits [] = 0 := rfl

theorem valDigits_concat (xs : List Char) (c : Char) :
    valDigits (xs ++ [c]) = 10 * valDigits xs + (c.toNat - 48) := by
  simp [valDigits, List.foldl_append]

theorem digitChar_toNat {m : Nat} (h : m < 10) :
    (Char.ofNat (48 + m)).toNat = 48 + m := by
  interval_cases m <;> decide

theorem digitChar_isDigit {m : Nat} (h : m < 10) :
    (Char.ofNat (48 + m)).isDigit = true := by
  interval_cases m <;> decide

theorem valDigits_natDigitsAux :
    ∀ (fuel n : Nat), n < 10 ^ fuel → valDigits (natDigitsAux fuel n) = n := by
  intro fuel
  induction fuel with
  | zero =>
    intro n h
    interval_cases n
    rfl
  | succ m ih =>
    intro n h
    rw [natDigitsAux]
    split_ifs with h0
    · simp [h0, valDigits]
    · have hdiv : n / 10 < 10 ^ m := by
        rw [Nat.div_lt_iff_lt_mul (by norm_num)]
        calc n < 10 ^ (m + 1) := h
          _ = 10 ^ m * 10 := by ring
      rw [valDigits_concat, ih (n / 10) hdiv,
        digitChar_toNat (Nat.mod_lt _ (by norm_num))]
      omega

theorem valDigits_natDigits (n : Nat) : valDigits (natDigits n) = n :=
  valDigits_natDigitsAux (n + 1) n
    (lt_of_lt_of_le (Nat.lt_pow_self (by norm_num) n)
      (Nat.pow_le_pow_right (by norm_num) (Nat.le_succ n)))

theorem natDigitsAux_mem_isDigit :
    ∀ (fuel n : Nat) (c : Char), c ∈ natDigitsAux fuel n → c.isDigit = true := by
  intro fuel
  induction fuel with
  | zero => simp [natDigitsAux]
  | succ m ih =>
    intro n c hc
    rw [natDigitsAux] at hc
    split_ifs at hc with h0
    · simp at hc
    · rcases List.mem_append.mp hc with h1 | h1
      · exact ih _ _ h1
      · rw [List.mem_singleton.mp h1]
        exact digitChar_isDigit (Nat.mod_lt _ (by norm_num))

theorem natDigitsAux_length :
    ∀ (fuel n k : Nat), n < 10 ^ k → (natDigitsAux fuel n).length ≤ k := by
  intro fuel
  induction fuel with
  | zero => intro n k h; simp [natDigitsAux]
  | succ m ih =>
    intro n k h
    rw [natDigitsAux]
    split_ifs with h0
    · simp
    · have hk : k ≠ 0 := by
        rintro rfl
        simp at h
        omega
      obtain ⟨k', rfl⟩ := Nat.exists_eq_succ_of_ne_zero hk
      have hdiv : n / 10 < 10 ^ k' := by
        rw [Nat.div_lt_iff_lt_mul (by norm_num)]
        calc n < 10 ^ (k' + 1) := h
          _ = 10 ^ k' * 10 := by ring
      simpa using Nat.succ_le_succ (ih (n / 10) k' hdiv)

theorem renderNat_ne_nil (n : Nat) : renderNat n ≠ [] := by
  unfold renderNat
  split_ifs with h0
  · simp
  · unfold natDigits
    rw [natDigitsAux]
    simp [h0]

theorem renderNat_mem_isDigit (n : Nat) (c : Char) (hc : c ∈ renderNat n) :
    c.isDigit = true := by
  unfold renderNat at hc
  split_ifs at hc with h0
  · rw [List.mem_singleton.mp hc]
    decide
  · exact natDigitsAux_mem_isDigit _ _ _ hc

theorem valDigits_renderNat (n : Nat) : valDigits (renderNat n) = n := by
  unfold renderNat
  split_ifs with h0
  · simp [h0]
    rfl
  · exact valDigits_natDigits n

theorem foldl_val_replicate_zero :
    ∀ m : Nat, List.foldl (fun a c => 10 * a + (c.toNat - 48)) 0
      (List.replicate m '0') = 0 := by
  intro m
  induction m with
  | zero => rfl
  | succ k ih => simpa [List.replicate_succ] using ih

theorem valDigits_padZeros (k : Nat) (ds : List Char) :
    valDigits (padZeros k ds) = valDigits ds := by
  unfold padZeros valDigits
  rw [List.foldl_append, foldl_val_replicate_zero]

theorem padZeros_length {k : Nat} {ds : List Char} (h : ds.length ≤ k) :
    (padZeros k ds).length = k := by
  simp [padZeros]
  omega

theorem padZeros_mem {k : Nat} {ds : List Char} {c : Char} (hc : c ∈ padZeros k ds) :
    c = '0' ∨ c ∈ ds := by
  rcases List.mem_append.mp hc with h1 | h1
  · exact Or.inl (List.eq_of_mem_replicate h1)
  · exact Or.inr h1

theorem valDigits_append_replicate_zero (xs : List Char) :
    ∀ z : Nat, valDigits (xs ++ List.replicate z '0') = valDigits xs * 10 ^ z := by
  intro z
  induction z with
  | zero => simp
  | succ m ih =>
    rw [List.replicate_succ', ← List.append_assoc, valDigits_concat, ih]
    have h0 : ('0' : Char).toNat - 48 = 0 := by decide
    rw [h0]
    ring

theorem stripZeros_decomp (ds : List Char) :
    ds = stripZeros ds ++
      List.replicate (ds.length - (stripZeros ds).length) '0' ∧
    (stripZeros ds).length ≤ ds.length := by
  have h1 : ds.reverse.takeWhile (fun c => c == '0') ++
      ds.reverse.dropWhile (fun c => c == '0') = ds.reverse :=
    List.takeWhile_append_dropWhile _ _
  have ht : ds.reverse.takeWhile (fun c => c == '0') =
      List.replicate (ds.reverse.takeWhile (fun c => c == '0')).length '0' :=
    List.eq_replicate_of_mem (fun b hb => by
      simpa using List.mem_takeWhile_imp hb)
  have hds : ds = stripZeros ds ++
      (ds.reverse.takeWhile (fun c => c == '0')).reverse := by
    conv_lhs => rw [← ds.reverse_reverse, ← h1]
    rw [List.reverse_append]
    rfl
  have hlen : ds.length = (stripZeros ds).length +
      (ds.reverse.takeWhile (fun c => c == '0')).length := by
    conv_lhs => rw [hds]
    simp
  constructor
  · conv_lhs => rw [hds]
    congr 1
    rw [ht, List.reverse_replicate]
    congr 1
    omega
  · omega

theorem stripZeros_mem {ds : List Char} {c : Char} (hc : c ∈ stripZeros ds) :
    c ∈ ds := by
  unfold stripZeros at hc
  rw [List.mem_reverse] at hc
  have := (List.dropWhile_sublist (l := ds.reverse) (fun c => c == '0')).mem hc
  simpa using this

/-! ## Claim C9: parsing the canonical rendering -/

theorem takeWhile_append_all {p : Char → Bool} :
    ∀ {l : List Char}, (∀ c ∈ l, p c = true) → ∀ r : List Char,
      (l ++ r).takeWhile p = l ++ r.takeWhile p := by
  intro l
  induction l with
  | nil => intro h r; simp
  | cons a t ih =>
    intro h r
    simp only [List.cons_append, List.takeWhile_cons, h a (by simp), if_true]
    rw [ih (fun c hc => h c (by simp [hc])) r]

theorem dropWhile_append_all {p : Char → Bool} :
    ∀ {l : List Char}, (∀ c ∈ l, p c = true) → ∀ r : List Char,
      (l ++ r).dropWhile p = r.dropWhile p := by
  intro l
  induction l with
  | nil => intro h r; simp
  | cons a t ih =>
    intro h r
    simp only [List.cons_append, List.dropWhile_cons, h a (by simp), if_true]
    exact ih (fun c hc => h c (by simp [hc])) r

theorem jsParseFloat?_all_digits {ds : List Char} (h : ∀ c ∈ ds, c.isDigit = true)
    (hne : ds ≠ []) : jsParseFloat? ds = some ((valDigits ds : ℚ)) := by
  unfold jsParseFloat?
  have ht : ds.takeWhile Char.isDigit = ds := by
    simpa using takeWhile_append_all h []
  have hd : ds.dropWhile Char.isDigit = [] := by
    simpa using dropWhile_append_all h []
  rw [ht, hd]
  simp [hne]

theorem jsParseFloat?_dot {intDs fracDs : List Char}
    (hi : ∀ c ∈ intDs, c.isDigit = true) (hf : ∀ c ∈ fracDs, c.isDigit = true)
    (hne : intDs ≠ []) :
    jsParseFloat? (intDs ++ '.' :: fracDs) =
      some ((valDigits intDs : ℚ) + (valDigits fracDs : ℚ) / 10 ^ fracDs.length) := by
  unfold jsParseFloat?
  rw [takeWhile_append_all hi, dropWhile_append_all hi]
  have hdot : ('.' : Char).isDigit = false := by decide
  rw [List.takeWhile_cons, List.dropWhile_cons]
  simp only [hdot, Bool.false_eq_true, if_false]
  have hfr : fracDs.takeWhile Char.isDigit = fracDs := by
    simpa using takeWhile_append_all hf []
  rw [hfr]
  have : (intDs ++ []).isEmpty = false := by
    simpa using List.isEmpty_eq_false.mpr hne
  simp [hne]

theorem scCodes_char : ∀ n ∈ scCodes, n = 36 ∨ 162 ≤ n := by decide

theorem isCurrencyChar_eq_false_of_digit {c : Char} (h : c.isDigit = true) :
    isCurrencyChar c = false := by
  have hb : 48 ≤ c.toNat ∧ c.toNat ≤ 57 := by
    simp [Char.isDigit, Char.le_def] at h
    exact h
  cases hcc : isCurrencyChar c
  · rfl
  · exfalso
    unfold isCurrencyChar at hcc
    have hmem : c.toNat ∈ scCodes := by
      simpa using hcc
    rcases scCodes_char _ hmem with h36 | h162 <;> omega

theorem endsCommaDD_eq_false {cs : List Char} (h : ¬ ',' ∈ cs) :
    endsCommaDD cs = false := by
  unfold endsCommaDD
  split
  · next d1 d0 tail heq =>
    exfalso
    apply h
    have hmem : ',' ∈ cs.reverse := by
      rw [heq]
      simp
    simpa using hmem
  · rfl

/-- `parsePrice` on a pure digits-and-dot string: default currency, and the
amount is whatever `parseFloat` reads. -/
theorem parsePrice_of_plain (cs : List Char)
    (hchars : ∀ c ∈ cs, c.isDigit = true ∨ c = '.') (v : ℚ)
    (hv : jsParseFloat? cs = some v) :
    parsePrice (String.mk cs) = { price := v, currency := "$" } := by
  have hnc : ¬ ',' ∈ cs := by
    intro hmem
    rcases hchars _ hmem with hd | hd <;> simp at hd
  have hsc : ∀ c ∈ cs, isCurrencyChar c = false := by
    intro c hc
    rcases hchars c hc with hd | rfl
    · exact isCurrencyChar_eq_false_of_digit hd
    · decide
  have hpc : ∀ c ∈ cs, isPriceChar c = true := by
    intro c hc
    rcases hchars c hc with hd | rfl
    · simp [isPriceChar, hd]
    · decide
  have hdata : (String.mk cs).data = cs := rfl
  simp only [parsePrice, hdata]
  rw [List.find?_eq_none.mpr (fun c hc => by simp [hsc c hc]),
    List.filter_eq_self.mpr hpc]
  rw [endsCommaDD_eq_false hnc]
  simp only [Bool.false_and, Bool.false_eq_true, if_false]
  rw [List.filter_eq_self.mpr (fun c hc => by
    simp only [Bool.not_eq_eq_eq_not, Bool.not_true, beq_eq_false_iff_ne, ne_eq]
    rintro rfl
    exact hnc hc)]
  rw [hv]
  rfl

/-! ## Claim C9: the canonical dot-decimal rendering -/

theorem dvd_ten_pow_self {d k : ℕ} (hd : d ≠ 0) (h : d ∣ 10 ^ k) : d ∣ 10 ^ d := by
  have h10k : (10 : ℕ) ^ k ≠ 0 := pow_ne_zero _ (by norm_num)
  have h10d : (10 : ℕ) ^ d ≠ 0 := pow_ne_zero _ (by norm_num)
  have hfact : Nat.factorization 10 = Finsupp.single 2 1 + Finsupp.single 5 1 := by
    rw [show (10 : ℕ) = 2 * 5 by norm_num,
      Nat.factorization_mul (by norm_num) (by norm_num),
      Nat.Prime.factorization Nat.prime_two, Nat.Prime.factorization Nat.prime_five]
  have hf := (Nat.factorization_le_iff_dvd hd h10k).mpr h
  refine (Nat.factorization_le_iff_dvd hd h10d).mp ?_
  rw [Finsupp.le_def] at hf ⊢
  intro p
  have hfp := hf p
  rw [Nat.factorization_pow, Finsupp.smul_apply, smul_eq_mul, hfact] at hfp
  rw [Nat.factorization_pow, Finsupp.smul_apply, smul_eq_mul, hfact]
  by_cases hp2 : p = 2
  · subst hp2
    have hlt : d.factorization 2 ≤ d := le_of_lt (Nat.factorization_lt 2 hd)
    simpa [Finsupp.single_apply] using hlt
  · by_cases hp5 : p = 5
    · subst hp5
      have hlt : d.factorization 5 ≤ d := le_of_lt (Nat.factorization_lt 5 hd)
      simpa [Finsupp.single_apply] using hlt
    · have hz : ((Finsupp.single 2 1 + Finsupp.single 5 1 : ℕ →₀ ℕ)) p = 0 := by
        rw [Finsupp.add_apply, Finsupp.single_apply, Finsupp.single_apply,
          if_neg (Ne.symm hp2), if_neg (Ne.symm hp5)]
        rfl
      rw [hz] at hfp ⊢
      omega

theorem den_dvd_of_nat_div_pow (n m : ℕ) :
    (((n : ℚ) / 10 ^ m).den : ℕ) ∣ 10 ^ m := by
  have h := Rat.den_dvd (n : ℤ) ((10 : ℤ) ^ m)
  rw [Rat.divInt_eq_div] at h
  have hcast : ((n : ℤ) : ℚ) / (((10 : ℤ) ^ m : ℤ) : ℚ) = (n : ℚ) / 10 ^ m := by
    push_cast
    ring
  rw [hcast] at h
  have h2 : ((10 : ℤ) ^ m) = ((10 ^ m : ℕ) : ℤ) := by push_cast; ring
  rw [h2] at h
  exact_mod_cast h

theorem den_dvd_of_sum_form (a b L : ℕ) :
    ∃ m : ℕ, ((((a : ℚ) + (b : ℚ) / 10 ^ L)).den : ℕ) ∣ 10 ^ m := by
  refine ⟨L, ?_⟩
  have h10 : ((10 : ℚ) ^ L) ≠ 0 := by positivity
  have hform : (a : ℚ) + (b : ℚ) / 10 ^ L = ((a * 10 ^ L + b : ℕ) : ℚ) / 10 ^ L := by
    field_simp
  rw [hform]
  exact den_dvd_of_nat_div_pow _ _

theorem jsParseFloat?_den_dvd (s : List Char) (q : ℚ) (h : jsParseFloat? s = some q) :
    ∃ m : ℕ, (q.den : ℕ) ∣ 10 ^ m := by
  unfold jsParseFloat? at h
  split at h
  · next rest heq =>
    dsimp only at h
    split_ifs at h with hcond
    have hq := Option.some.inj h
    rw [← hq]
    exact den_dvd_of_sum_form _ _ _
  · dsimp only at h
    split_ifs at h with hcond
    have hq := Option.some.inj h
    rw [← hq]
    exact ⟨0, by simp [Rat.den_natCast]⟩

theorem parsePrice_price_nonneg (text : String) : 0 ≤ (parsePrice text).price := by
  simp only [parsePrice]
  split_ifs <;> exact getD_jsParseFloat?_nonneg _

theorem parsePrice_den_dvd (text : String) :
    ∃ m : ℕ, ((parsePrice text).price.den : ℕ) ∣ 10 ^ m := by
  simp only [parsePrice]
  split_ifs
  all_goals
    cases hj : jsParseFloat? _ with
    | none => exact ⟨0, by simp [hj]⟩
    | some v => simpa [hj] using jsParseFloat?_den_dvd _ v hj

theorem parsePrice_currency_default (text : String)
    (h : ∀ c ∈ text.data, isCurrencyChar c = false) :
    (parsePrice text).currency = "$" := by
  simp only [parsePrice]
  rw [List.find?_eq_none.mpr (fun c hc => by simp [h c hc])]

theorem parsePrice_renderCanonical (q : ℚ) (h0 : 0 ≤ q)
    (hd : (q.den : ℕ) ∣ 10 ^ q.den) :
    parsePrice (String.mk (renderCanonical q)) = { price := q, currency := "$" } := by
  have hden0 : (q.den : ℕ) ≠ 0 := q.den_nz
  have hpowpos : 0 < (10 : ℕ) ^ q.den := Nat.pos_pow_of_pos _ (by norm_num)
  unfold renderCanonical
  set E := q.den with hE
  set N := q.num.toNat * 10 ^ E / q.den with hN
  set I := N / 10 ^ E with hI
  set F := N % 10 ^ E with hF
  set frac := stripZeros (padZeros E (natDigits F)) with hfrac
  have hdvd : q.den ∣ q.num.toNat * 10 ^ E := Dvd.dvd.mul_left hd _
  have hNd : q.den * N = q.num.toNat * 10 ^ E := Nat.mul_div_cancel' hdvd
  have hnum : ((q.num.toNat : ℕ) : ℚ) = (q.num : ℚ) := by
    exact_mod_cast congrArg (fun z : ℤ => (z : ℚ))
      (Int.toNat_of_nonneg (Rat.num_nonneg.mpr h0))
  have hden' : ((q.den : ℕ) : ℚ) ≠ 0 := by exact_mod_cast hden0
  have h10' : ((10 : ℚ)) ^ E ≠ 0 := by positivity
  have hqN : ((N : ℕ) : ℚ) / 10 ^ E = q := by
    have hcast : ((q.den : ℕ) : ℚ) * N = (q.num : ℚ) * 10 ^ E := by
      rw [← hnum]
      exact_mod_cast congrArg (fun n : ℕ => (n : ℚ)) hNd
    rw [div_eq_iff h10', ← Rat.num_div_den q, div_mul_eq_mul_div, eq_div_iff hden']
    linear_combination hcast
  have hIF : 10 ^ E * I + F = N := Nat.div_add_mod N (10 ^ E)
  have hFlt : F < 10 ^ E := Nat.mod_lt _ hpowpos
  have hlenF : (natDigits F).length ≤ E := natDigitsAux_length _ F E hFlt
  have hpadlen : (padZeros E (natDigits F)).length = E := padZeros_length hlenF
  have hpadval : valDigits (padZeros E (natDigits F)) = F := by
    rw [valDigits_padZeros, valDigits_natDigits]
  obtain ⟨hdecomp, hlenle⟩ := stripZeros_decomp (padZeros E (natDigits F))
  set z := (padZeros E (natDigits F)).length - frac.length with hz
  have hFval : F = valDigits frac * 10 ^ z := by
    rw [← hpadval]
    conv_lhs => rw [hdecomp]
    exact valDigits_append_replicate_zero frac z
  have hElen : E = frac.length + z := by
    have hl2 : (padZeros E (natDigits F)).length = frac.length + z := by
      conv_lhs => rw [hdecomp]
      simp
    omega
  have hfracdig : ∀ c ∈ frac, c.isDigit = true := by
    intro c hc
    rcases padZeros_mem (stripZeros_mem hc) with rfl | h2
    · decide
    · exact natDigitsAux_mem_isDigit _ _ _ h2
  by_cases hfe : frac.isEmpty
  · rw [if_pos hfe]
    have hfrnil : frac = [] := List.isEmpty_iff.mp hfe
    have hF0 : F = 0 := by
      rw [hFval, hfrnil, valDigits_nil, Nat.zero_mul]
    have hqI : ((I : ℕ) : ℚ) = q := by
      rw [← hqN, ← hIF, hF0]
      push_cast
      field_simp
    rw [parsePrice_of_plain (renderNat I)
      (fun c hc => Or.inl (renderNat_mem_isDigit I c hc)) ((valDigits (renderNat I) : ℚ))
      (jsParseFloat?_all_digits (fun c hc => renderNat_mem_isDigit I c hc)
        (renderNat_ne_nil I))]
    rw [valDigits_renderNat, hqI]
  · rw [if_neg hfe]
    have hval : ((I : ℕ) : ℚ) + (valDigits frac : ℚ) / 10 ^ frac.length = q := by
      rw [← hqN, ← hIF, hFval, hElen]
      have h10a : ((10 : ℚ)) ^ frac.length ≠ 0 := by positivity
      have h10b : ((10 : ℚ)) ^ z ≠ 0 := by positivity
      push_cast
      rw [pow_add]
      field_simp
      ring
    rw [parsePrice_of_plain (renderNat I ++ '.' :: frac) ?hc
      ((valDigits (renderNat I) : ℚ) + (valDigits frac : ℚ) / 10 ^ frac.length)
      (jsParseFloat?_dot (fun c hc => renderNat_mem_isDigit I c hc) hfracdig
        (renderNat_ne_nil I))]
    · rw [valDigits_renderNat, hval]
    case hc =>
      intro c hc
      rcases List.mem_append.mp hc with h1 | h1
      · exact Or.inl (renderNat_mem_isDigit I c h1)
      · rcases List.mem_cons.mp h1 with rfl | h2
        · exact Or.inr rfl
        · exact Or.inl (hfracdig c h2)

/-- C9: for every price text recognized as a plain-integer, dot-decimal or
comma-decimal form, normalizing it with `parsePrice`, rendering the resulting
amount in canonical dot-decimal form and normalizing again yields the same
amount and currency as the first normalization. -/
theorem claim_C9 (text : String) (h : recognizedInput text.data) :
    parsePrice (String.mk (renderCanonical (parsePrice text).price)) =
      parsePrice text := by
  have hchars : ∀ c ∈ text.data, c.isDigit = true ∨ c = '.' ∨ c = ',' := by
    rcases h with ⟨_, hall⟩ | ⟨a, b, heq, _, _, ha, hb⟩ | ⟨a, x, y, heq, _, ha, hx, hy⟩
    · exact fun c hc => Or.inl (hall c hc)
    · intro c hc
      rw [heq] at hc
      rcases List.mem_append.mp hc with h1 | h1
      · exact Or.inl (ha c h1)
      · rcases List.mem_cons.mp h1 with rfl | h2
        · exact Or.inr (Or.inl rfl)
        · exact Or.inl (hb c h2)
    · intro c hc
      rw [heq] at hc
      rcases List.mem_append.mp hc with h1 | h1
      · exact Or.inl (ha c h1)
      · rcases List.mem_cons.mp h1 with rfl | h2
        · exact Or.inr (Or.inr rfl)
        · rcases List.mem_cons.mp h2 with rfl | h3
          · exact Or.inl hx
          · rw [List.mem_singleton.mp h3]
            exact Or.inl hy
  have hcurr : (parsePrice text).currency = "$" :=
    parsePrice_currency_default text (fun c hc => by
      rcases hchars c hc with hd | rfl | rfl
      · exact isCurrencyChar_eq_false_of_digit hd
      · decide
      · decide)
  obtain ⟨m, hm⟩ := parsePrice_den_dvd text
  have hdd : (((parsePrice text).price).den : ℕ) ∣ 10 ^ ((parsePrice text).price).den :=
    dvd_ten_pow_self (Rat.den_nz _) hm
  rw [parsePrice_renderCanonical _ (parsePrice_price_nonneg text) hdd]
  have heta : parsePrice text =
      { price := (parsePrice text).price, currency := (parsePrice text).currency } := rfl
  rw [hcurr] at heta
  exact heta.symm

/-- Witness for C9 at the comma-decimal input `"12,34"`. -/
theorem claim_C9_witness :
    recognizedInput ("12,34".data) ∧
    parsePrice (String.mk (renderCanonical (parsePrice "12,34").price)) =
      parsePrice "12,34" := by
  have hrec : recognizedInput ("12,34".data) :=
    Or.inr (Or.inr ⟨['1', '2'], '3', '4', rfl, by decide, by decide, by decide, by decide⟩)
  exact ⟨hrec, claim_C9 "12,34" hrec⟩

end Trackerman
